import Mathlib

/-!
Shallow embedding of the hotel management program (`main.go`).

The program keeps two global slices, `users` and `rooms`, mutated by
menu-driven operations and persisted after every mutation.  We model the
in-memory state as a `State` structure and each mutating operation as a
pure function `State → … → State × Result`.  Go `float64` money values
(price, balance) are modelled as rationals, Go `int` counters and ids as
`Int`.  Console input lines that the program parses with `strconv` are
modelled by their parse results: `Option Int` / `Option ℚ` for a line
parsed unconditionally (`none` = parse failure), and `Input α` for an
optional field line of an update operation, where the empty line means
"keep the old value".
-/

namespace Hotel

/-- A user record, mirroring the Go struct `User`. -/
structure User where
  ID : Int
  Username : String
  Password : String
  Role : String
  CustomerType : String
  Balance : ℚ
deriving DecidableEq

/-- A room record, mirroring the Go struct `Room` (the Go field `Type` is
written `type` here). -/
structure Room where
  ID : Int
  type : String
  Price : ℚ
  Total : Int
  Available : Int
deriving DecidableEq

/-- The in-memory program state: the `users` and `rooms` slices. -/
structure State where
  users : List User
  rooms : List Room
deriving DecidableEq

/-- An input line for an optional field of an update operation: the empty
line keeps the old value, `bad` is a non-empty line that fails to parse,
`ok v` is a line that parses to `v`. -/
inductive Input (α : Type) where
  | empty
  | bad
  | ok (v : α)
deriving DecidableEq

/-- `getNextUserID` from main.go: fold the loop `maxID := 0; if user.ID >
maxID then maxID = user.ID`, then return `maxID + 1`. -/
def getNextUserID (users : List User) : Int :=
  (users.foldl (fun maxID u => if u.ID > maxID then u.ID else maxID) 0) + 1

/-- `getNextRoomID` from main.go. -/
def getNextRoomID (rooms : List Room) : Int :=
  (rooms.foldl (fun maxID r => if r.ID > maxID then r.ID else maxID) 0) + 1

/-- Mutation through a pointer to the first element matching `p`, as the Go
code does after a linear search (`for i := range xs { if … { ptr = &xs[i] } }`). -/
def updateFirst (p : α → Bool) (f : α → α) : List α → List α
  | [] => []
  | a :: as => if p a then f a :: as else a :: updateFirst p f as

/-- Deletion of the first element matching `p`, as the Go code
`xs = append(xs[:index], xs[index+1:]...)` after a linear search. -/
def removeFirst (p : α → Bool) : List α → List α
  | [] => []
  | a :: as => if p a then as else a :: removeFirst p as

/-- Outcome of `registerCustomer`. -/
inductive RegResult where
  | duplicate
  | ok
deriving DecidableEq

/-- `registerCustomer` from main.go: reject a duplicate username, otherwise
append a customer with the next id, chosen customer type and balance 1000. -/
def registerCustomer (s : State) (username password ctChoice : String) :
    State × RegResult :=
  if s.users.any (fun u => u.Username == username) then (s, .duplicate)
  else
    let customerType := if ctChoice == "1" then "member" else "regular"
    let newUser : User :=
      ⟨getNextUserID s.users, username, password, "customer", customerType, 1000⟩
    ({ s with users := s.users ++ [newUser] }, .ok)

/-- Outcome of `addUser`. -/
inductive AddUserResult where
  | duplicate
  | invalidRole
  | ok
deriving DecidableEq

/-- `addUser` from main.go: admin adds an admin (zero-valued customer fields)
or a customer (chosen type, balance 1000); duplicate usernames and invalid
role choices are rejected. -/
def addUser (s : State) (username password roleChoice ctChoice : String) :
    State × AddUserResult :=
  if s.users.any (fun u => u.Username == username) then (s, .duplicate)
  else if roleChoice == "1" then
    ({ s with users :=
        s.users ++ [⟨getNextUserID s.users, username, password, "admin", "", 0⟩] }, .ok)
  else if roleChoice == "2" then
    let customerType := if ctChoice == "1" then "member" else "regular"
    ({ s with users :=
        s.users ++ [⟨getNextUserID s.users, username, password, "customer",
          customerType, 1000⟩] }, .ok)
  else (s, .invalidRole)

/-- Outcome of an update operation. -/
inductive UpdResult where
  | invalidId
  | notFound
  | updated
deriving DecidableEq

/-- The field edits `updateUser` applies to the found user: empty username and
password lines keep the old values; for customers, choice "1"/"2" sets the
customer type (anything else keeps it) and a balance line is applied only
when it parses. -/
def applyUserUpdate (u : User) (newUsername newPassword ctChoice : String)
    (balInput : Input ℚ) : User :=
  let u1 := if newUsername == "" then u else { u with Username := newUsername }
  let u2 := if newPassword == "" then u1 else { u1 with Password := newPassword }
  if u2.Role == "customer" then
    let u3 :=
      if ctChoice == "1" then { u2 with CustomerType := "member" }
      else if ctChoice == "2" then { u2 with CustomerType := "regular" }
      else u2
    match balInput with
    | .ok b => { u3 with Balance := b }
    | _ => u3
  else u2

/-- `updateUser` from main.go: an unparsable id or a missing user aborts;
otherwise the first user with the given id is edited in place and saved. -/
def updateUser (s : State) (idInput : Option Int)
    (newUsername newPassword ctChoice : String) (balInput : Input ℚ) :
    State × UpdResult :=
  match idInput with
  | none => (s, .invalidId)
  | some id =>
    if s.users.any (fun u => u.ID == id) then
      let users' := updateFirst (fun u => u.ID == id)
        (fun u => applyUserUpdate u newUsername newPassword ctChoice balInput)
        s.users
      ({ s with users := users' }, .updated)
    else (s, .notFound)

/-- Outcome of a delete operation. -/
inductive DelResult where
  | invalidId
  | notFound
  | cancelled
  | deleted
deriving DecidableEq

/-- `deleteUser` from main.go: an unparsable id or a missing user aborts; the
deletion happens only when the confirmation line is "y" or "Y". -/
def deleteUser (s : State) (idInput : Option Int) (confirm : String) :
    State × DelResult :=
  match idInput with
  | none => (s, .invalidId)
  | some id =>
    if s.users.any (fun u => u.ID == id) then
      if confirm == "y" || confirm == "Y" then
        ({ s with users := removeFirst (fun u => u.ID == id) s.users }, .deleted)
      else (s, .cancelled)
    else (s, .notFound)

/-- Outcome of `addRoom`. -/
inductive AddRoomResult where
  | invalidPrice
  | invalidTotal
  | ok
deriving DecidableEq

/-- `addRoom` from main.go: price and total must parse (no sign check);
the new room gets the next id and `Available = Total`. -/
def addRoom (s : State) (rtype : String) (priceInput : Option ℚ)
    (totalInput : Option Int) : State × AddRoomResult :=
  match priceInput with
  | none => (s, .invalidPrice)
  | some price =>
    match totalInput with
    | none => (s, .invalidTotal)
    | some total =>
      ({ s with rooms :=
          s.rooms ++ [⟨getNextRoomID s.rooms, rtype, price, total, total⟩] }, .ok)

/-- The field edits `updateRoom` applies to the found room: empty type and
price lines keep the old values; a parsed total line sets the total and
shifts `Available` by the same difference, clamped below at 0. -/
def applyRoomUpdate (r : Room) (newType : String) (priceInput : Input ℚ)
    (totalInput : Input Int) : Room :=
  let r1 := if newType == "" then r else { r with type := newType }
  let r2 :=
    match priceInput with
    | .ok p => { r1 with Price := p }
    | _ => r1
  match totalInput with
  | .ok total =>
    let avail := r2.Available + (total - r2.Total)
    { r2 with Total := total, Available := if avail < 0 then 0 else avail }
  | _ => r2

/-- `updateRoom` from main.go: an unparsable id or a missing room aborts;
otherwise the first room with the given id is edited in place and saved. -/
def updateRoom (s : State) (idInput : Option Int) (newType : String)
    (priceInput : Input ℚ) (totalInput : Input Int) : State × UpdResult :=
  match idInput with
  | none => (s, .invalidId)
  | some id =>
    if s.rooms.any (fun r => r.ID == id) then
      let rooms' := updateFirst (fun r => r.ID == id)
        (fun r => applyRoomUpdate r newType priceInput totalInput)
        s.rooms
      ({ s with rooms := rooms' }, .updated)
    else (s, .notFound)

/-- `deleteRoom` from main.go, analogous to `deleteUser`. -/
def deleteRoom (s : State) (idInput : Option Int) (confirm : String) :
    State × DelResult :=
  match idInput with
  | none => (s, .invalidId)
  | some id =>
    if s.rooms.any (fun r => r.ID == id) then
      if confirm == "y" || confirm == "Y" then
        ({ s with rooms := removeFirst (fun r => r.ID == id) s.rooms }, .deleted)
      else (s, .cancelled)
    else (s, .notFound)

/-- Outcome of `bookRoom`; every constructor except `success` corresponds to
an error message printed before returning without mutation
(`invalidCustomer` marks the out-of-range customer index the Go program
cannot produce, since the customer pointer comes from `login`). -/
inductive BookResult where
  | invalidCustomer
  | noRooms
  | invalidId
  | roomNotFound
  | invalidQuantity
  | notEnoughRooms
  | insufficientBalance
  | success
deriving DecidableEq

/-- `bookRoom` from main.go: the logged-in customer is `s.users[cidx]`; after
the guards (rooms non-empty, id parses, room found, quantity parses and is
positive, quantity ≤ available, balance ≥ price × quantity) the balance is
debited and the room's availability decremented. -/
def bookRoom (s : State) (cidx : Nat) (idInput : Option Int)
    (qtyInput : Option Int) : State × BookResult :=
  match s.users.get? cidx with
  | none => (s, .invalidCustomer)
  | some customer =>
    if s.rooms.isEmpty then (s, .noRooms)
    else
      match idInput with
      | none => (s, .invalidId)
      | some id =>
        match s.rooms.find? (fun r => r.ID == id) with
        | none => (s, .roomNotFound)
        | some room =>
          match qtyInput with
          | none => (s, .invalidQuantity)
          | some quantity =>
            if quantity ≤ 0 then (s, .invalidQuantity)
            else if quantity > room.Available then (s, .notEnoughRooms)
            else
              let totalCost := room.Price * (quantity : ℚ)
              if customer.Balance < totalCost then (s, .insufficientBalance)
              else
                ({ users := s.users.set cidx
                      { customer with Balance := customer.Balance - totalCost },
                   rooms := updateFirst (fun r => r.ID == id)
                      (fun r => { r with Available := r.Available - quantity })
                      s.rooms }, .success)

/-- One menu-level mutating operation together with its (already parsed)
console inputs. -/
inductive Op where
  | register (username password ctChoice : String)
  | addUser (username password roleChoice ctChoice : String)
  | updateUser (idInput : Option Int) (newUsername newPassword ctChoice : String)
      (balInput : Input ℚ)
  | deleteUser (idInput : Option Int) (confirm : String)
  | addRoom (rtype : String) (priceInput : Option ℚ) (totalInput : Option Int)
  | updateRoom (idInput : Option Int) (newType : String) (priceInput : Input ℚ)
      (totalInput : Input Int)
  | deleteRoom (idInput : Option Int) (confirm : String)
  | book (cidx : Nat) (idInput : Option Int) (qtyInput : Option Int)

/-- The state transition of one operation. -/
def step (s : State) : Op → State
  | .register u p ct => (registerCustomer s u p ct).1
  | .addUser u p rc ct => (addUser s u p rc ct).1
  | .updateUser i nu np ct b => (updateUser s i nu np ct b).1
  | .deleteUser i c => (deleteUser s i c).1
  | .addRoom t p tot => (addRoom s t p tot).1
  | .updateRoom i nt p tot => (updateRoom s i nt p tot).1
  | .deleteRoom i c => (deleteRoom s i c).1
  | .book c i q => (bookRoom s c i q).1

/-- Whether an operation is a booking. -/
def Op.isBook : Op → Bool
  | .book _ _ _ => true
  | _ => false

/-- Whether an operation is the administrative room update. -/
def Op.isRoomUpdate : Op → Bool
  | .updateRoom _ _ _ _ => true
  | _ => false

/-- The room constraints claimed by the data model. -/
def roomOK (r : Room) : Prop :=
  0 ≤ r.Price ∧ 0 ≤ r.Total ∧ 0 ≤ r.Available ∧ r.Available ≤ r.Total

instance : DecidablePred roomOK := fun r => by
  unfold roomOK
  infer_instance

/-- Every room of the store satisfies the data-model constraints. -/
def roomsOK (s : State) : Prop := ∀ r ∈ s.rooms, roomOK r

instance : DecidablePred roomsOK := fun s => by
  unfold roomsOK
  infer_instance

/-- The numeric inputs of an operation are nonnegative (true for operations
without numeric room inputs). -/
def Op.inputsNonneg : Op → Prop
  | .addRoom _ p t =>
      (∀ x, p = some x → 0 ≤ x) ∧ (∀ x, t = some x → 0 ≤ x)
  | .updateRoom _ _ p t =>
      (∀ x, p = .ok x → 0 ≤ x) ∧ (∀ x, t = .ok x → 0 ≤ x)
  | _ => True

section Lemmas

variable {α : Type _}

/-- A successful search in a prefix is a successful search in the whole list. -/
theorem find?_append_left {p : α → Bool} {l₁ l₂ : List α} {a : α}
    (h : l₁.find? p = some a) : (l₁ ++ l₂).find? p = some a := by
  induction l₁ with
  | nil => simp [List.find?] at h
  | cons b l ih =>
    by_cases hb : p b
    · simpa [List.find?_cons_of_pos _ hb] using h
    · rw [List.find?_cons_of_neg _ hb] at h
      simpa [List.find?_cons_of_neg _ hb] using ih h

/-- Updating the first element matching `p` moves the search result through
`f`, provided `f` keeps the element matching. -/
theorem find?_updateFirst_self {p : α → Bool} {f : α → α} {l : List α} {a : α}
    (h : l.find? p = some a) (hf : p (f a) = true) :
    (updateFirst p f l).find? p = some (f a) := by
  induction l with
  | nil => simp [List.find?] at h
  | cons b l ih =>
    by_cases hb : p b
    · rw [List.find?_cons_of_pos _ hb] at h
      cases h
      simp [updateFirst, hb, List.find?_cons_of_pos _ hf]
    · rw [List.find?_cons_of_neg _ hb] at h
      simp [updateFirst, hb, List.find?_cons_of_neg _ hb, ih h]

/-- Updating the first element matching `p` does not change a search by a
predicate `q` disjoint from `p` and not created by `f`. -/
theorem find?_updateFirst_of_disjoint {p q : α → Bool} {f : α → α} {l : List α}
    (hpq : ∀ b, p b = true → q b = false)
    (hfq : ∀ b, p b = true → q (f b) = false) :
    (updateFirst p f l).find? q = l.find? q := by
  induction l with
  | nil => rfl
  | cons b l ih =>
    by_cases hb : p b
    · have h1 : ¬ q (f b) = true := by simp [hfq b hb]
      have h2 : ¬ q b = true := by simp [hpq b hb]
      rw [show updateFirst p f (b :: l) = f b :: l from by simp [updateFirst, hb]]
      rw [List.find?_cons_of_neg _ h1, List.find?_cons_of_neg _ h2]
    · rw [show updateFirst p f (b :: l) = b :: updateFirst p f l from by
        simp [updateFirst, hb]]
      by_cases hq : q b
      · rw [List.find?_cons_of_pos _ hq, List.find?_cons_of_pos _ hq]
      · rw [List.find?_cons_of_neg _ hq, List.find?_cons_of_neg _ hq, ih]

/-- Removing the first element matching `p` does not change a search by a
predicate `q` disjoint from `p`. -/
theorem find?_removeFirst_of_disjoint {p q : α → Bool} {l : List α}
    (hpq : ∀ b, p b = true → q b = false) :
    (removeFirst p l).find? q = l.find? q := by
  induction l with
  | nil => rfl
  | cons b l ih =>
    by_cases hb : p b
    · have h2 : ¬ q b = true := by simp [hpq b hb]
      rw [show removeFirst p (b :: l) = l from by simp [removeFirst, hb]]
      rw [List.find?_cons_of_neg _ h2]
    · rw [show removeFirst p (b :: l) = b :: removeFirst p l from by
        simp [removeFirst, hb]]
      by_cases hq : q b
      · rw [List.find?_cons_of_pos _ hq, List.find?_cons_of_pos _ hq]
      · rw [List.find?_cons_of_neg _ hq, List.find?_cons_of_neg _ hq, ih]

/-- With pairwise distinct keys, removing the first element with key `id`
leaves no element with key `id`. -/
theorem find?_removeFirst_self_nodup {k : α → Int} {l : List α} {id : Int}
    (h : (l.map k).Nodup) :
    (removeFirst (fun a => k a == id) l).find? (fun a => k a == id) = none := by
  induction l with
  | nil => rfl
  | cons b l ih =>
    simp only [List.map_cons, List.nodup_cons] at h
    by_cases hb : k b = id
    · rw [show removeFirst (fun a => k a == id) (b :: l) = l from by
        simp [removeFirst, hb]]
      rw [List.find?_eq_none]
      intro x hx
      simp only [beq_iff_eq]
      intro hxk
      exact h.1 (by rw [hb, ← hxk]; exact List.mem_map_of_mem k hx)
    · rw [show removeFirst (fun a => k a == id) (b :: l) =
          b :: removeFirst (fun a => k a == id) l from by simp [removeFirst, hb]]
      rw [List.find?_cons_of_neg _ (by simp [hb])]
      exact ih h.2

/-- Every element of `updateFirst p f l` is an old element or `f` of the
first match. -/
theorem mem_updateFirst {p : α → Bool} {f : α → α} {l : List α} {x : α}
    (hx : x ∈ updateFirst p f l) :
    x ∈ l ∨ ∃ a, l.find? p = some a ∧ x = f a := by
  induction l with
  | nil => simp [updateFirst] at hx
  | cons b l ih =>
    by_cases hb : p b
    · simp only [updateFirst, if_pos hb, List.mem_cons] at hx
      rcases hx with hx | hx
      · exact Or.inr ⟨b, List.find?_cons_of_pos _ hb, hx⟩
      · exact Or.inl (List.mem_cons_of_mem _ hx)
    · simp only [updateFirst, if_neg hb, List.mem_cons] at hx
      rcases hx with hx | hx
      · exact Or.inl (by simp [hx])
      · rcases ih hx with hx' | ⟨a, ha, hxa⟩
        · exact Or.inl (List.mem_cons_of_mem _ hx')
        · exact Or.inr ⟨a, by rw [List.find?_cons_of_neg _ hb]; exact ha, hxa⟩

/-- `removeFirst` only removes elements. -/
theorem mem_removeFirst {p : α → Bool} {l : List α} {x : α}
    (hx : x ∈ removeFirst p l) : x ∈ l := by
  induction l with
  | nil => simp [removeFirst] at hx
  | cons b l ih =>
    by_cases hb : p b
    · simp only [removeFirst, if_pos hb] at hx
      exact List.mem_cons_of_mem _ hx
    · simp only [removeFirst, if_neg hb, List.mem_cons] at hx
      rcases hx with hx | hx
      · simp [hx]
      · exact List.mem_cons_of_mem _ (ih hx)

/-- Positions holding an element that does not match `p` are untouched by
`updateFirst`. -/
theorem get?_updateFirst_of_neg {p : α → Bool} {f : α → α} {l : List α}
    {j : Nat} {a : α} (hj : l.get? j = some a) (ha : p a = false) :
    (updateFirst p f l).get? j = some a := by
  induction l generalizing j with
  | nil => simp at hj
  | cons b l ih =>
    cases j with
    | zero =>
      rw [List.get?_cons_zero, Option.some.injEq] at hj
      subst hj
      rw [show updateFirst p f (b :: l) = b :: updateFirst p f l from by
        simp [updateFirst, ha]]
      rfl
    | succ j =>
      rw [List.get?_cons_succ] at hj
      by_cases hb : p b
      · rw [show updateFirst p f (b :: l) = f b :: l from by simp [updateFirst, hb]]
        rw [List.get?_cons_succ]
        exact hj
      · rw [show updateFirst p f (b :: l) = b :: updateFirst p f l from by
          simp [updateFirst, hb]]
        rw [List.get?_cons_succ]
        exact ih hj

/-- Setting position `i` of a list puts the new value at position `i`. -/
theorem get?_set_self {l : List α} {i : Nat} {a : α} (h : i < l.length) :
    (l.set i a).get? i = some a := by
  induction l generalizing i with
  | nil => simp at h
  | cons b l ih =>
    cases i with
    | zero => rfl
    | succ i => simpa using ih (by simpa using h)

/-- The `maxID` accumulator loop shared by `getNextUserID` and
`getNextRoomID`, generic in the key. -/
def maxFold (k : α → Int) (l : List α) (a : Int) : Int :=
  l.foldl (fun m x => if k x > m then k x else m) a

theorem maxFold_cons {k : α → Int} {b : α} {l : List α} {a : Int} :
    maxFold k (b :: l) a = maxFold k l (if k b > a then k b else a) := rfl

/-- The accumulator never decreases. -/
theorem le_maxFold_init {k : α → Int} {l : List α} {a : Int} :
    a ≤ maxFold k l a := by
  induction l generalizing a with
  | nil => exact le_refl a
  | cons b l ih =>
    rw [maxFold_cons]
    refine le_trans ?_ ih
    split <;> omega

/-- The fold dominates every key of the list. -/
theorem le_maxFold_of_mem {k : α → Int} {l : List α} {a : Int} {x : α}
    (hx : x ∈ l) : k x ≤ maxFold k l a := by
  induction l generalizing a with
  | nil => simp at hx
  | cons b l ih =>
    rw [maxFold_cons]
    rcases List.mem_cons.mp hx with hx | hx
    · subst hx
      refine le_trans ?_ le_maxFold_init
      split <;> omega
    · exact ih hx

/-- The fold result is the initial accumulator or one of the keys. -/
theorem maxFold_eq_init_or_mem {k : α → Int} {l : List α} {a : Int} :
    maxFold k l a = a ∨ ∃ x ∈ l, maxFold k l a = k x := by
  induction l generalizing a with
  | nil => exact Or.inl rfl
  | cons b l ih =>
    rw [maxFold_cons]
    rcases @ih (if k b > a then k b else a) with h | ⟨x, hx, h⟩
    · by_cases hb : k b > a
      · exact Or.inr ⟨b, List.mem_cons_self _ _, by simpa [hb] using h⟩
      · exact Or.inl (by simpa [hb] using h)
    · exact Or.inr ⟨x, List.mem_cons_of_mem _ hx, h⟩

end Lemmas

section OpFrames

/-- User-management operations do not touch the room store. -/
theorem registerCustomer_rooms_eq (s : State) (u p ct : String) :
    (registerCustomer s u p ct).1.rooms = s.rooms := by
  unfold registerCustomer
  split <;> rfl

theorem addUser_rooms_eq (s : State) (u p rc ct : String) :
    (addUser s u p rc ct).1.rooms = s.rooms := by
  unfold addUser
  split
  · rfl
  · split
    · rfl
    · split <;> rfl

theorem updateUser_rooms_eq (s : State) (i : Option Int) (nu np ct : String)
    (b : Input ℚ) : (updateUser s i nu np ct b).1.rooms = s.rooms := by
  unfold updateUser
  split
  · rfl
  · split <;> rfl

theorem deleteUser_rooms_eq (s : State) (i : Option Int) (c : String) :
    (deleteUser s i c).1.rooms = s.rooms := by
  unfold deleteUser
  split
  · rfl
  · split
    · split <;> rfl
    · rfl

/-- `applyUserUpdate` never changes the user's id. -/
theorem applyUserUpdate_ID (u : User) (nu np ct : String) (bI : Input ℚ) :
    (applyUserUpdate u nu np ct bI).ID = u.ID := by
  simp only [applyUserUpdate]
  repeat' split
  all_goals rfl

/-- `applyRoomUpdate` never changes the room's id. -/
theorem applyRoomUpdate_ID (r : Room) (nt : String) (pI : Input ℚ)
    (tI : Input Int) : (applyRoomUpdate r nt pI tI).ID = r.ID := by
  simp only [applyRoomUpdate]
  repeat' split
  all_goals rfl

end OpFrames

section Claims

/-- Claim C6: a registration or admin add-user whose username equals the
username of an existing user is rejected and the user store is unchanged. -/
theorem duplicate_username_rejected (s : State) (username pw rc ct : String)
    (h : ∃ u ∈ s.users, u.Username = username) :
    registerCustomer s username pw ct = (s, .duplicate) ∧
    addUser s username pw rc ct = (s, .duplicate) := by
  have hany : s.users.any (fun u => u.Username == username) = true := by
    rcases h with ⟨u, hu, he⟩
    exact List.any_eq_true.mpr ⟨u, hu, by simp [he]⟩
  constructor
  · simp [registerCustomer, hany]
  · simp [addUser, hany]

/-- Witness for C6 at a store holding the default admin. -/
theorem duplicate_username_rejected_witness :
    registerCustomer ⟨[⟨1, "admin", "admin", "admin", "", 0⟩], []⟩
        "admin" "pw" "1" =
      (⟨[⟨1, "admin", "admin", "admin", "", 0⟩], []⟩, .duplicate) ∧
    addUser ⟨[⟨1, "admin", "admin", "admin", "", 0⟩], []⟩
        "admin" "pw" "2" "1" =
      (⟨[⟨1, "admin", "admin", "admin", "", 0⟩], []⟩, .duplicate) :=
  duplicate_username_rejected ⟨[⟨1, "admin", "admin", "admin", "", 0⟩], []⟩
    "admin" "pw" "2" "1" ⟨⟨1, "admin", "admin", "admin", "", 0⟩, by simp, rfl⟩

/-- Claim C7: `getNextUserID`/`getNextRoomID` return 1 on an empty store, an
id strictly above every existing id (hence fresh), and, whenever the store
has a nonnegative maximum id `m`, exactly `m + 1`. -/
theorem nextID_spec (users : List User) (rooms : List Room) :
    (getNextUserID [] = 1 ∧ getNextRoomID [] = 1) ∧
    (∀ u ∈ users, u.ID < getNextUserID users) ∧
    (∀ r ∈ rooms, r.ID < getNextRoomID rooms) ∧
    (∀ m, m ∈ users.map User.ID → (∀ i ∈ users.map User.ID, i ≤ m) → 0 ≤ m →
      getNextUserID users = m + 1) ∧
    (∀ m, m ∈ rooms.map Room.ID → (∀ i ∈ rooms.map Room.ID, i ≤ m) → 0 ≤ m →
      getNextRoomID rooms = m + 1) := by
  have husers : getNextUserID users = maxFold User.ID users 0 + 1 := rfl
  have hrooms : getNextRoomID rooms = maxFold Room.ID rooms 0 + 1 := rfl
  refine ⟨⟨rfl, rfl⟩, ?_, ?_, ?_, ?_⟩
  · intro u hu
    rw [husers]
    have := le_maxFold_of_mem (k := User.ID) (a := 0) hu
    omega
  · intro r hr
    rw [hrooms]
    have := le_maxFold_of_mem (k := Room.ID) (a := 0) hr
    omega
  · intro m hm hmax hm0
    rcases List.mem_map.mp hm with ⟨u, hu, hid⟩
    have h1 : m ≤ maxFold User.ID users 0 := hid ▸ le_maxFold_of_mem hu
    have h2 : maxFold User.ID users 0 ≤ m := by
      rcases maxFold_eq_init_or_mem (k := User.ID) (l := users) (a := 0) with h | ⟨x, hx, h⟩
      · omega
      · rw [h]
        exact hmax _ (List.mem_map_of_mem _ hx)
    rw [husers]
    omega
  · intro m hm hmax hm0
    rcases List.mem_map.mp hm with ⟨r, hr, hid⟩
    have h1 : m ≤ maxFold Room.ID rooms 0 := hid ▸ le_maxFold_of_mem hr
    have h2 : maxFold Room.ID rooms 0 ≤ m := by
      rcases maxFold_eq_init_or_mem (k := Room.ID) (l := rooms) (a := 0) with h | ⟨x, hx, h⟩
      · omega
      · rw [h]
        exact hmax _ (List.mem_map_of_mem _ hx)
    rw [hrooms]
    omega

/-- Witness for C7: concrete stores with maximum ids 2 and 5. -/
theorem nextID_spec_witness :
    getNextUserID [⟨2, "a", "b", "admin", "", 0⟩] = 3 ∧
    getNextRoomID [⟨5, "x", 1, 1, 1⟩] = 6 := by
  have h := nextID_spec [⟨2, "a", "b", "admin", "", 0⟩] [⟨5, "x", 1, 1, 1⟩]
  exact ⟨h.2.2.2.1 2 (by simp) (by simp) (by norm_num),
    h.2.2.2.2 5 (by simp) (by simp) (by norm_num)⟩

/-- Claim C9: a successful add-room appends one record whose availability
equals its total, leaving every previously existing room (and the user
store) unchanged. -/
theorem addRoom_success_shape (s : State) (rt : String) (p : ℚ) (t : Int) :
    ∃ nr : Room,
      (addRoom s rt (some p) (some t)).1.rooms = s.rooms ++ [nr] ∧
      nr.Available = nr.Total ∧
      (addRoom s rt (some p) (some t)).1.users = s.users ∧
      (addRoom s rt (some p) (some t)).2 = .ok :=
  ⟨⟨getNextRoomID s.rooms, rt, p, t, t⟩, rfl, rfl, rfl, rfl⟩

/-- Claim C10: a booking whose quantity line fails to parse or parses to a
non-positive number leaves the whole state unchanged and is rejected. -/
theorem bookRoom_invalid_quantity (s : State) (cidx : Nat) (idInput : Option Int)
    (qtyInput : Option Int)
    (h : qtyInput = none ∨ ∃ q, qtyInput = some q ∧ q ≤ 0) :
    (bookRoom s cidx idInput qtyInput).1 = s ∧
    (bookRoom s cidx idInput qtyInput).2 ≠ .success := by
  rcases h with h | ⟨q, h, hq⟩ <;> subst h <;>
    unfold bookRoom <;> repeat' split
  all_goals try exact ⟨rfl, by simp⟩
  all_goals simp_all
  all_goals omega

/-- Witness for C10: quantity 0 at a concrete store. -/
theorem bookRoom_invalid_quantity_witness :
    (bookRoom ⟨[⟨1, "a", "p", "customer", "regular", 1000⟩],
        [⟨1, "single", 100, 5, 5⟩]⟩ 0 (some 1) (some 0)).1 =
      ⟨[⟨1, "a", "p", "customer", "regular", 1000⟩], [⟨1, "single", 100, 5, 5⟩]⟩ ∧
    (bookRoom ⟨[⟨1, "a", "p", "customer", "regular", 1000⟩],
        [⟨1, "single", 100, 5, 5⟩]⟩ 0 (some 1) (some 0)).2 ≠ .success :=
  bookRoom_invalid_quantity _ 0 (some 1) (some 0) (Or.inr ⟨0, rfl, le_refl 0⟩)

/-- Claim C1: when the booking preconditions hold (customer present, room
found, positive quantity within availability, sufficient balance), the
booking succeeds, the customer's balance drops by exactly price × quantity
and the room's availability drops by exactly the quantity. -/
theorem bookRoom_success_effect (s : State) (cidx : Nat) (rid q : Int)
    (u : User) (r : Room)
    (hu : s.users.get? cidx = some u)
    (hr : s.rooms.find? (fun x => x.ID == rid) = some r)
    (hq : 0 < q) (hqa : q ≤ r.Available)
    (hb : r.Price * (q : ℚ) ≤ u.Balance) :
    (bookRoom s cidx (some rid) (some q)).2 = .success ∧
    (bookRoom s cidx (some rid) (some q)).1.users.get? cidx =
      some { u with Balance := u.Balance - r.Price * (q : ℚ) } ∧
    (bookRoom s cidx (some rid) (some q)).1.rooms.find? (fun x => x.ID == rid) =
      some { r with Available := r.Available - q } := by
  have hne : s.rooms ≠ [] := by
    intro h
    rw [h] at hr
    simp at hr
  have hisEmpty : s.rooms.isEmpty = false := by
    cases hs : s.rooms with
    | nil => exact absurd hs hne
    | cons a l => rfl
  have hq0 : ¬ q ≤ 0 := by omega
  have hq1 : ¬ q > r.Available := by omega
  have hb1 : ¬ u.Balance < r.Price * (q : ℚ) := not_lt.mpr hb
  have hu' : s.users[cidx]? = some u := by rw [← List.get?_eq_getElem?]; exact hu
  have hres : bookRoom s cidx (some rid) (some q) =
      ({ users := s.users.set cidx
            { u with Balance := u.Balance - r.Price * (q : ℚ) },
         rooms := updateFirst (fun x => x.ID == rid)
            (fun x => { x with Available := x.Available - q }) s.rooms },
        .success) := by
    simp [bookRoom, hu', hisEmpty, hr, hq0, hq1, hb1]
  have hlt : cidx < s.users.length := by
    rcases List.get?_eq_some.mp hu with ⟨h, _⟩
    exact h
  refine ⟨by rw [hres], ?_, ?_⟩
  · rw [hres]
    exact get?_set_self hlt
  · rw [hres]
    refine find?_updateFirst_self hr ?_
    have := List.find?_some hr
    simpa using this

/-- Witness for C1: booking two rooms at price 100 from balance 1000. -/
theorem bookRoom_success_effect_witness :
    (bookRoom ⟨[⟨1, "alice", "pw", "customer", "regular", 1000⟩],
        [⟨1, "single", 100, 5, 5⟩]⟩ 0 (some 1) (some 2)).2 = .success ∧
    (bookRoom ⟨[⟨1, "alice", "pw", "customer", "regular", 1000⟩],
        [⟨1, "single", 100, 5, 5⟩]⟩ 0 (some 1) (some 2)).1.users.get? 0 =
      some ⟨1, "alice", "pw", "customer", "regular", 800⟩ ∧
    (bookRoom ⟨[⟨1, "alice", "pw", "customer", "regular", 1000⟩],
        [⟨1, "single", 100, 5, 5⟩]⟩ 0 (some 1)
        (some 2)).1.rooms.find? (fun x => x.ID == 1) =
      some ⟨1, "single", 100, 5, 3⟩ := by
  have h := bookRoom_success_effect
    ⟨[⟨1, "alice", "pw", "customer", "regular", 1000⟩], [⟨1, "single", 100, 5, 5⟩]⟩
    0 1 2 ⟨1, "alice", "pw", "customer", "regular", 1000⟩ ⟨1, "single", 100, 5, 5⟩
    rfl rfl (by norm_num) (by norm_num) (by norm_num)
  refine ⟨h.1, ?_, ?_⟩
  · rw [h.2.1]
    norm_num
  · rw [h.2.2]
    norm_num

/-- Claim C2: a booking attempt hitting any of the listed precondition
failures (room not found, quantity above availability, balance below the
cost) leaves the state unchanged and does not report success. -/
theorem bookRoom_precondition_failure (s : State) (cidx : Nat) (rid q : Int)
    (u : User)
    (hu : s.users.get? cidx = some u)
    (hfail : s.rooms.find? (fun x => x.ID == rid) = none
      ∨ (∃ r, s.rooms.find? (fun x => x.ID == rid) = some r ∧ r.Available < q)
      ∨ (∃ r, s.rooms.find? (fun x => x.ID == rid) = some r ∧
          u.Balance < r.Price * (q : ℚ))) :
    (bookRoom s cidx (some rid) (some q)).1 = s ∧
    (bookRoom s cidx (some rid) (some q)).2 ≠ .success := by
  have hu' : s.users[cidx]? = some u := by rw [← List.get?_eq_getElem?]; exact hu
  rcases hfail with hf | ⟨r, hr, hlt⟩ | ⟨r, hr, hbal⟩
  · by_cases he : s.rooms.isEmpty
    · simp [bookRoom, hu', he]
    · have he' : s.rooms.isEmpty = false := by simpa using he
      simp [bookRoom, hu', he', hf]
  · have he : s.rooms.isEmpty = false := by
      cases hs : s.rooms with
      | nil => rw [hs] at hr; simp at hr
      | cons a l => rfl
    by_cases hq0 : q ≤ 0
    · simp [bookRoom, hu', he, hr, hq0]
    · have hgt : q > r.Available := by omega
      simp [bookRoom, hu', he, hr, hq0, hgt]
  · have he : s.rooms.isEmpty = false := by
      cases hs : s.rooms with
      | nil => rw [hs] at hr; simp at hr
      | cons a l => rfl
    by_cases hq0 : q ≤ 0
    · simp [bookRoom, hu', he, hr, hq0]
    · by_cases hgt : q > r.Available
      · simp [bookRoom, hu', he, hr, hq0, hgt]
      · simp [bookRoom, hu', he, hr, hq0, hgt, hbal]

/-- Witness for C2: a booking whose cost 1200 exceeds the balance 1000. -/
theorem bookRoom_precondition_failure_witness :
    (bookRoom ⟨[⟨1, "alice", "pw", "customer", "regular", 1000⟩],
        [⟨1, "suite", 600, 5, 5⟩]⟩ 0 (some 1) (some 2)).1 =
      ⟨[⟨1, "alice", "pw", "customer", "regular", 1000⟩],
        [⟨1, "suite", 600, 5, 5⟩]⟩ ∧
    (bookRoom ⟨[⟨1, "alice", "pw", "customer", "regular", 1000⟩],
        [⟨1, "suite", 600, 5, 5⟩]⟩ 0 (some 1) (some 2)).2 ≠ .success :=
  bookRoom_precondition_failure
    ⟨[⟨1, "alice", "pw", "customer", "regular", 1000⟩], [⟨1, "suite", 600, 5, 5⟩]⟩
    0 1 2 ⟨1, "alice", "pw", "customer", "regular", 1000⟩ rfl
    (Or.inr (Or.inr ⟨⟨1, "suite", 600, 5, 5⟩, rfl, by norm_num⟩))

/-- The room edits of `updateRoom` preserve the data-model constraints as
long as the parsed price and total inputs are nonnegative. -/
theorem applyRoomUpdate_preserves_OK {r : Room} {nt : String} {pI : Input ℚ}
    {tI : Input Int} (hr : roomOK r)
    (hp : ∀ x, pI = .ok x → 0 ≤ x) (ht : ∀ x, tI = .ok x → 0 ≤ x) :
    roomOK (applyRoomUpdate r nt pI tI) := by
  obtain ⟨h1, h2, h3, h4⟩ := hr
  cases pI <;> cases tI <;>
    simp only [applyRoomUpdate, roomOK] <;>
    split_ifs <;>
    refine ⟨?_, ?_, ?_, ?_⟩ <;>
    simp_all <;>
    omega

/-- The room store after `bookRoom` is either untouched or, on success, the
found room's availability is decremented by the (positive, covered)
quantity. -/
theorem bookRoom_rooms_cases (s : State) (cidx : Nat) (i q : Option Int) :
    (bookRoom s cidx i q).1.rooms = s.rooms ∨
    ∃ id0 qty room, i = some id0 ∧ q = some qty ∧
      s.rooms.find? (fun r => r.ID == id0) = some room ∧
      0 < qty ∧ qty ≤ room.Available ∧
      (bookRoom s cidx i q).1.rooms =
        updateFirst (fun r => r.ID == id0)
          (fun r => { r with Available := r.Available - qty }) s.rooms := by
  simp only [bookRoom]
  repeat' split
  all_goals try exact Or.inl rfl
  exact Or.inr ⟨_, _, _, rfl, rfl, by assumption, by omega, by omega, rfl⟩

/-- The user store after `bookRoom` is either untouched or, on success, the
customer at `cidx` has the booking cost debited. -/
theorem bookRoom_users_cases (s : State) (cidx : Nat) (i q : Option Int) :
    (bookRoom s cidx i q).1.users = s.users ∨
    ∃ u id0 qty room, s.users.get? cidx = some u ∧ i = some id0 ∧
      q = some qty ∧ s.rooms.find? (fun r => r.ID == id0) = some room ∧
      room.Price * (qty : ℚ) ≤ u.Balance ∧
      (bookRoom s cidx i q).1.users =
        s.users.set cidx { u with Balance := u.Balance - room.Price * (qty : ℚ) } := by
  simp only [bookRoom]
  repeat' split
  all_goals try exact Or.inl rfl
  refine Or.inr ⟨_, _, _, _, by assumption, rfl, rfl, by assumption, ?_, rfl⟩
  rename_i hbal
  exact le_of_not_lt hbal

/-- Claim C3 counterexample: `addRoom` accepts a negative price, so the
resulting store violates the claimed constraints. -/
theorem room_constraints_violated_cex :
    ¬ roomsOK (addRoom ⟨[], []⟩ "single" (some (-1)) (some 1)).1 := by decide

/-- Claim C3 (amended): if every room satisfied the constraints before an
operation and the numeric inputs supplied to add-room/update-room are
nonnegative, every room satisfies `price ≥ 0 ∧ total ≥ 0 ∧
0 ≤ available ≤ total` after the operation. -/
theorem step_preserves_room_constraints (s : State) (op : Op)
    (hs : roomsOK s) (hop : op.inputsNonneg) : roomsOK (step s op) := by
  cases op with
  | register u p ct =>
    intro r hr
    simp only [step] at hr
    rw [registerCustomer_rooms_eq] at hr
    exact hs r hr
  | addUser u p rc ct =>
    intro r hr
    simp only [step] at hr
    rw [addUser_rooms_eq] at hr
    exact hs r hr
  | updateUser i nu np ct b =>
    intro r hr
    simp only [step] at hr
    rw [updateUser_rooms_eq] at hr
    exact hs r hr
  | deleteUser i c =>
    intro r hr
    simp only [step] at hr
    rw [deleteUser_rooms_eq] at hr
    exact hs r hr
  | addRoom t pI tI =>
    intro r hr
    simp only [step] at hr
    obtain ⟨hp, ht⟩ := hop
    cases pI with
    | none => exact hs r hr
    | some p =>
      cases tI with
      | none => exact hs r hr
      | some t0 =>
        have hr' : r ∈ s.rooms ++ [⟨getNextRoomID s.rooms, t, p, t0, t0⟩] := hr
        rcases List.mem_append.mp hr' with h | h
        · exact hs r h
        · have hre : r = ⟨getNextRoomID s.rooms, t, p, t0, t0⟩ := by simpa using h
          subst hre
          exact ⟨hp p rfl, ht t0 rfl, ht t0 rfl, le_refl _⟩
  | updateRoom i nt pI tI =>
    intro r hr
    simp only [step] at hr
    obtain ⟨hp, ht⟩ := hop
    cases i with
    | none => exact hs r hr
    | some id =>
      by_cases hfound : s.rooms.any (fun x => x.ID == id)
      · have hr' : r ∈ updateFirst (fun x => x.ID == id)
            (fun x => applyRoomUpdate x nt pI tI) s.rooms := by
          simpa [updateRoom, hfound] using hr
        rcases mem_updateFirst hr' with h | ⟨a, ha, hfa⟩
        · exact hs r h
        · subst hfa
          exact applyRoomUpdate_preserves_OK
            (hs a (List.mem_of_find?_eq_some ha)) hp ht
      · have heq : (updateRoom s (some id) nt pI tI).1 = s := by
          simp [updateRoom, hfound]
        rw [heq] at hr
        exact hs r hr
  | deleteRoom i c =>
    intro r hr
    simp only [step] at hr
    cases i with
    | none => exact hs r hr
    | some id =>
      by_cases hfound : s.rooms.any (fun x => x.ID == id)
      · by_cases hc : (c == "y" || c == "Y") = true
        · have hr' : r ∈ removeFirst (fun x => x.ID == id) s.rooms := by
            simpa [deleteRoom, hfound, hc] using hr
          exact hs r (mem_removeFirst hr')
        · have heq : (deleteRoom s (some id) c).1 = s := by
            simp [deleteRoom, hfound, hc]
          rw [heq] at hr
          exact hs r hr
      · have heq : (deleteRoom s (some id) c).1 = s := by
          simp [deleteRoom, hfound]
        rw [heq] at hr
        exact hs r hr
  | book c i q =>
    intro r hr
    simp only [step] at hr
    rcases bookRoom_rooms_cases s c i q with h
      | ⟨id0, qty, room, hi, hq, hfind, hpos, hle, heq⟩
    · rw [h] at hr
      exact hs r hr
    · rw [heq] at hr
      rcases mem_updateFirst hr with h' | ⟨a, ha, hfa⟩
      · exact hs r h'
      · rw [hfind] at ha
        cases ha
        subst hfa
        obtain ⟨p1, p2, p3, p4⟩ := hs room (List.mem_of_find?_eq_some hfind)
        refine ⟨p1, p2, ?_, ?_⟩
        · show (0 : Int) ≤ room.Available - qty
          omega
        · show room.Available - qty ≤ room.Total
          omega

/-- Witness for the amended C3 at a concrete state and add-room input. -/
theorem step_preserves_room_constraints_witness :
    roomsOK (step ⟨[], [⟨1, "single", 10, 2, 2⟩]⟩
      (.addRoom "double" (some 5) (some 3))) := by
  apply step_preserves_room_constraints
  · decide
  · exact ⟨fun x hx => by injection hx with h; rw [← h]; norm_num,
      fun x hx => by injection hx with h; omega⟩

/-- Claim C4 counterexample: in `updateUser` a balance line that fails to
parse is reported but the operation is not aborted: the already-entered
username change is kept and saved, so the store mutates. -/
theorem invalid_field_input_mutates_cex :
    (updateUser ⟨[⟨1, "alice", "pw", "customer", "regular", 1000⟩], []⟩
        (some 1) "bob" "" "" .bad).1 ≠
      ⟨[⟨1, "alice", "pw", "customer", "regular", 1000⟩], []⟩ := by decide

/-- Claim C4 (amended): a non-numeric id aborts update/delete of users and
rooms with no mutation, and so does a reference to a missing entity; each
case reports its message through the returned result. -/
theorem invalid_id_or_missing_entity_aborts (s : State) (id : Int)
    (nu np ct : String) (bI : Input ℚ) (nt : String) (pI : Input ℚ)
    (tI : Input Int) (cf : String) :
    (updateUser s none nu np ct bI = (s, .invalidId) ∧
      deleteUser s none cf = (s, .invalidId) ∧
      updateRoom s none nt pI tI = (s, .invalidId) ∧
      deleteRoom s none cf = (s, .invalidId)) ∧
    ((∀ u ∈ s.users, u.ID ≠ id) →
      updateUser s (some id) nu np ct bI = (s, .notFound) ∧
      deleteUser s (some id) cf = (s, .notFound)) ∧
    ((∀ r ∈ s.rooms, r.ID ≠ id) →
      updateRoom s (some id) nt pI tI = (s, .notFound) ∧
      deleteRoom s (some id) cf = (s, .notFound)) := by
  refine ⟨⟨rfl, rfl, rfl, rfl⟩, ?_, ?_⟩
  · intro h
    have hany : s.users.any (fun u => u.ID == id) = false := by
      rw [List.any_eq_false]
      intro x hx
      simpa using h x hx
    constructor
    · simp [updateUser, hany]
    · simp [deleteUser, hany]
  · intro h
    have hany : s.rooms.any (fun r => r.ID == id) = false := by
      rw [List.any_eq_false]
      intro x hx
      simpa using h x hx
    constructor
    · simp [updateRoom, hany]
    · simp [deleteRoom, hany]

/-- Witness for the amended C4: id 99 is absent from both stores. -/
theorem invalid_id_or_missing_entity_aborts_witness :
    updateUser ⟨[⟨1, "a", "p", "admin", "", 0⟩], [⟨1, "s", 10, 2, 2⟩]⟩
        none "x" "" "" .bad =
      (⟨[⟨1, "a", "p", "admin", "", 0⟩], [⟨1, "s", 10, 2, 2⟩]⟩, .invalidId) ∧
    updateUser ⟨[⟨1, "a", "p", "admin", "", 0⟩], [⟨1, "s", 10, 2, 2⟩]⟩
        (some 99) "x" "" "" .bad =
      (⟨[⟨1, "a", "p", "admin", "", 0⟩], [⟨1, "s", 10, 2, 2⟩]⟩, .notFound) ∧
    updateRoom ⟨[⟨1, "a", "p", "admin", "", 0⟩], [⟨1, "s", 10, 2, 2⟩]⟩
        (some 99) "t" .empty .empty =
      (⟨[⟨1, "a", "p", "admin", "", 0⟩], [⟨1, "s", 10, 2, 2⟩]⟩, .notFound) := by
  have h := invalid_id_or_missing_entity_aborts
    ⟨[⟨1, "a", "p", "admin", "", 0⟩], [⟨1, "s", 10, 2, 2⟩]⟩ 99
    "x" "" "" .bad "t" .empty .empty "n"
  exact ⟨h.1.1, (h.2.1 (by decide)).1, (h.2.2 (by decide)).1⟩

/-- An empty username line keeps the username. -/
theorem applyUserUpdate_username_empty (u : User) (np ct : String)
    (bI : Input ℚ) : (applyUserUpdate u "" np ct bI).Username = u.Username := by
  unfold applyUserUpdate
  repeat' split
  all_goals try rfl
  all_goals simp_all
  all_goals split <;> rfl

/-- An empty password line keeps the password. -/
theorem applyUserUpdate_password_empty (u : User) (nu ct : String)
    (bI : Input ℚ) : (applyUserUpdate u nu "" ct bI).Password = u.Password := by
  unfold applyUserUpdate
  repeat' split
  all_goals try rfl
  all_goals simp_all
  all_goals split <;> rfl

/-- An empty customer-type line keeps the customer type. -/
theorem applyUserUpdate_ctype_empty (u : User) (nu np : String)
    (bI : Input ℚ) :
    (applyUserUpdate u nu np "" bI).CustomerType = u.CustomerType := by
  unfold applyUserUpdate
  repeat' split
  all_goals try rfl
  all_goals simp_all
  all_goals split <;> rfl

/-- An empty balance line keeps the balance. -/
theorem applyUserUpdate_balance_empty (u : User) (nu np ct : String) :
    (applyUserUpdate u nu np ct .empty).Balance = u.Balance := by
  unfold applyUserUpdate
  repeat' split
  all_goals try rfl
  all_goals simp_all
  all_goals split <;> rfl

/-- An empty room-type line keeps the room type. -/
theorem applyRoomUpdate_type_empty (r : Room) (pI : Input ℚ) (tI : Input Int) :
    (applyRoomUpdate r "" pI tI).type = r.type := by
  unfold applyRoomUpdate
  repeat' split
  all_goals try rfl
  all_goals simp_all
  all_goals split <;> rfl

/-- An empty price line keeps the price. -/
theorem applyRoomUpdate_price_empty (r : Room) (nt : String) (tI : Input Int) :
    (applyRoomUpdate r nt .empty tI).Price = r.Price := by
  unfold applyRoomUpdate
  repeat' split
  all_goals try rfl
  all_goals simp_all
  all_goals split <;> rfl

/-- An empty total line keeps both the total and the availability. -/
theorem applyRoomUpdate_total_empty (r : Room) (nt : String) (pI : Input ℚ) :
    (applyRoomUpdate r nt pI .empty).Total = r.Total ∧
    (applyRoomUpdate r nt pI .empty).Available = r.Available := by
  unfold applyRoomUpdate
  constructor <;>
    (repeat' split
     all_goals try rfl
     all_goals simp_all
     all_goals split <;> rfl)

/-- Claim C8: updating an existing user or room edits exactly the first
record with the given id — every field whose input line is empty keeps its
prior value — and every record at a position holding a different id is
unchanged, as is the other store. -/
theorem update_keeps_empty_fields_and_frame (s : State) (id1 id2 : Int)
    (nu np ct : String) (bI : Input ℚ) (nt : String) (pI : Input ℚ)
    (tI : Input Int) :
    (∀ u, s.users.find? (fun x => x.ID == id1) = some u →
      (updateUser s (some id1) nu np ct bI).1.rooms = s.rooms ∧
      (updateUser s (some id1) nu np ct bI).1.users.find?
          (fun x => x.ID == id1) = some (applyUserUpdate u nu np ct bI) ∧
      (∀ j a, s.users.get? j = some a → a.ID ≠ id1 →
        (updateUser s (some id1) nu np ct bI).1.users.get? j = some a) ∧
      (applyUserUpdate u nu np ct bI).ID = u.ID ∧
      (nu = "" → (applyUserUpdate u nu np ct bI).Username = u.Username) ∧
      (np = "" → (applyUserUpdate u nu np ct bI).Password = u.Password) ∧
      (ct = "" → (applyUserUpdate u nu np ct bI).CustomerType = u.CustomerType) ∧
      (bI = .empty → (applyUserUpdate u nu np ct bI).Balance = u.Balance)) ∧
    (∀ r, s.rooms.find? (fun x => x.ID == id2) = some r →
      (updateRoom s (some id2) nt pI tI).1.users = s.users ∧
      (updateRoom s (some id2) nt pI tI).1.rooms.find?
          (fun x => x.ID == id2) = some (applyRoomUpdate r nt pI tI) ∧
      (∀ j a, s.rooms.get? j = some a → a.ID ≠ id2 →
        (updateRoom s (some id2) nt pI tI).1.rooms.get? j = some a) ∧
      (applyRoomUpdate r nt pI tI).ID = r.ID ∧
      (nt = "" → (applyRoomUpdate r nt pI tI).type = r.type) ∧
      (pI = .empty → (applyRoomUpdate r nt pI tI).Price = r.Price) ∧
      (tI = .empty → (applyRoomUpdate r nt pI tI).Total = r.Total ∧
        (applyRoomUpdate r nt pI tI).Available = r.Available)) := by
  constructor
  · intro u hu
    have hpu : (u.ID == id1) = true := by simpa using List.find?_some hu
    have hany : s.users.any (fun x => x.ID == id1) = true :=
      List.any_eq_true.mpr ⟨u, List.mem_of_find?_eq_some hu, hpu⟩
    have husers : (updateUser s (some id1) nu np ct bI).1.users =
        updateFirst (fun x => x.ID == id1)
          (fun x => applyUserUpdate x nu np ct bI) s.users := by
      simp [updateUser, hany]
    refine ⟨updateUser_rooms_eq s (some id1) nu np ct bI, ?_, ?_, ?_, ?_, ?_, ?_, ?_⟩
    · rw [husers]
      refine find?_updateFirst_self hu ?_
      rw [show (applyUserUpdate u nu np ct bI).ID = u.ID from
        applyUserUpdate_ID u nu np ct bI]
      exact hpu
    · intro j a hj ha
      rw [husers]
      exact get?_updateFirst_of_neg hj (by simpa using ha)
    · exact applyUserUpdate_ID u nu np ct bI
    · intro h
      subst h
      exact applyUserUpdate_username_empty u np ct bI
    · intro h
      subst h
      exact applyUserUpdate_password_empty u nu ct bI
    · intro h
      subst h
      exact applyUserUpdate_ctype_empty u nu np bI
    · intro h
      subst h
      exact applyUserUpdate_balance_empty u nu np ct
  · intro r hr
    have hpr : (r.ID == id2) = true := by simpa using List.find?_some hr
    have hany : s.rooms.any (fun x => x.ID == id2) = true :=
      List.any_eq_true.mpr ⟨r, List.mem_of_find?_eq_some hr, hpr⟩
    have hrooms : (updateRoom s (some id2) nt pI tI).1.rooms =
        updateFirst (fun x => x.ID == id2)
          (fun x => applyRoomUpdate x nt pI tI) s.rooms := by
      simp [updateRoom, hany]
    have husers : (updateRoom s (some id2) nt pI tI).1.users = s.users := by
      simp [updateRoom, hany]
    refine ⟨husers, ?_, ?_, ?_, ?_, ?_, ?_⟩
    · rw [hrooms]
      refine find?_updateFirst_self hr ?_
      rw [show (applyRoomUpdate r nt pI tI).ID = r.ID from
        applyRoomUpdate_ID r nt pI tI]
      exact hpr
    · intro j a hj ha
      rw [hrooms]
      exact get?_updateFirst_of_neg hj (by simpa using ha)
    · exact applyRoomUpdate_ID r nt pI tI
    · intro h
      subst h
      exact applyRoomUpdate_type_empty r pI tI
    · intro h
      subst h
      exact applyRoomUpdate_price_empty r nt tI
    · intro h
      subst h
      exact applyRoomUpdate_total_empty r nt pI

/-- Witness for C8: all-empty update lines leave the targeted records as
they were. -/
theorem update_keeps_empty_fields_and_frame_witness :
    (updateUser ⟨[⟨1, "a", "p", "customer", "regular", 1000⟩],
        [⟨1, "s", 10, 2, 2⟩]⟩ (some 1) "" "" "" .empty).1.users.find?
      (fun x => x.ID == 1) = some ⟨1, "a", "p", "customer", "regular", 1000⟩ ∧
    (updateRoom ⟨[⟨1, "a", "p", "customer", "regular", 1000⟩],
        [⟨1, "s", 10, 2, 2⟩]⟩ (some 1) "" .empty .empty).1.rooms.find?
      (fun x => x.ID == 1) = some ⟨1, "s", 10, 2, 2⟩ := by
  have h := update_keeps_empty_fields_and_frame
    ⟨[⟨1, "a", "p", "customer", "regular", 1000⟩], [⟨1, "s", 10, 2, 2⟩]⟩
    1 1 "" "" "" .empty "" .empty .empty
  exact ⟨(h.1 ⟨1, "a", "p", "customer", "regular", 1000⟩ rfl).2.1,
    (h.2 ⟨1, "s", 10, 2, 2⟩ rfl).2.1⟩

/-- A total line that fails to parse keeps both the total and the
availability. -/
theorem applyRoomUpdate_total_bad (r : Room) (nt : String) (pI : Input ℚ) :
    (applyRoomUpdate r nt pI .bad).Total = r.Total ∧
    (applyRoomUpdate r nt pI .bad).Available = r.Available := by
  unfold applyRoomUpdate
  constructor <;>
    (repeat' split
     all_goals try rfl
     all_goals simp_all
     all_goals split <;> rfl)

/-- A parsed total line sets the total and shifts the availability by the
difference, clamped below at 0. -/
theorem applyRoomUpdate_total_ok (r : Room) (nt : String) (pI : Input ℚ)
    (t : Int) :
    (applyRoomUpdate r nt pI (.ok t)).Total = t ∧
    (applyRoomUpdate r nt pI (.ok t)).Available =
      (if r.Available + (t - r.Total) < 0 then 0
       else r.Available + (t - r.Total)) := by
  cases pI <;> by_cases hnt : (nt == "") = true <;>
    simp [applyRoomUpdate, hnt]

/-- Claim C5 counterexample: lowering a room's total through the
administrative room update (not a booking) lowers its availability from 5
to 3, so availability does not decrease only via booking. -/
theorem available_decrease_not_by_book_cex :
    (step ⟨[], [⟨1, "single", 100, 5, 5⟩]⟩
        (.updateRoom (some 1) "" .empty (.ok 3))).rooms =
      [⟨1, "single", 100, 3, 3⟩] ∧
    Op.isBook (.updateRoom (some 1) "" .empty (.ok 3)) = false := by
  constructor
  · decide
  · rfl

/-- Claim C5 (amended): under distinct room ids, a room's availability
changes only through a booking — which strictly decreases it — or through
the administrative total adjustment of `updateRoom`, which moves it by the
total difference and clamps it below at 0 (and can decrease it as well as
increase it). -/
theorem available_change_only_book_or_roomUpdate (s : State) (op : Op)
    (rid : Int) (a a2 : Room)
    (hnd : (s.rooms.map Room.ID).Nodup)
    (ha : s.rooms.find? (fun r => r.ID == rid) = some a)
    (ha2 : (step s op).rooms.find? (fun r => r.ID == rid) = some a2)
    (hne : a2.Available ≠ a.Available) :
    (op.isBook = true ∧ a2.Available < a.Available) ∨
    (op.isRoomUpdate = true ∧
      a2.Available = max 0 (a.Available + (a2.Total - a.Total))) := by
  cases op with
  | register u p ct =>
    simp only [step] at ha2
    rw [registerCustomer_rooms_eq, ha] at ha2
    injection ha2 with h
    subst h
    exact absurd rfl hne
  | addUser u p rc ct =>
    simp only [step] at ha2
    rw [addUser_rooms_eq, ha] at ha2
    injection ha2 with h
    subst h
    exact absurd rfl hne
  | updateUser i nu np ct b =>
    simp only [step] at ha2
    rw [updateUser_rooms_eq, ha] at ha2
    injection ha2 with h
    subst h
    exact absurd rfl hne
  | deleteUser i c =>
    simp only [step] at ha2
    rw [deleteUser_rooms_eq, ha] at ha2
    injection ha2 with h
    subst h
    exact absurd rfl hne
  | addRoom t pI tI =>
    simp only [step] at ha2
    cases pI with
    | none =>
      rw [show (addRoom s t none tI).1.rooms = s.rooms from rfl, ha] at ha2
      injection ha2 with h
      subst h
      exact absurd rfl hne
    | some p =>
      cases tI with
      | none =>
        rw [show (addRoom s t (some p) none).1.rooms = s.rooms from rfl,
          ha] at ha2
        injection ha2 with h
        subst h
        exact absurd rfl hne
      | some t0 =>
        rw [show (addRoom s t (some p) (some t0)).1.rooms =
            s.rooms ++ [⟨getNextRoomID s.rooms, t, p, t0, t0⟩] from rfl] at ha2
        rw [find?_append_left ha] at ha2
        injection ha2 with h
        subst h
        exact absurd rfl hne
  | updateRoom i nt pI tI =>
    simp only [step] at ha2
    cases i with
    | none =>
      rw [show (updateRoom s none nt pI tI).1.rooms = s.rooms from rfl,
        ha] at ha2
      injection ha2 with h
      subst h
      exact absurd rfl hne
    | some id =>
      by_cases hfound : s.rooms.any (fun x => x.ID == id)
      · have hre : (updateRoom s (some id) nt pI tI).1.rooms =
            updateFirst (fun x => x.ID == id)
              (fun x => applyRoomUpdate x nt pI tI) s.rooms := by
          simp [updateRoom, hfound]
        rw [hre] at ha2
        by_cases hid : rid = id
        · subst hid
          rw [find?_updateFirst_self ha (by
            rw [show (applyRoomUpdate a nt pI tI).ID = a.ID from
              applyRoomUpdate_ID a nt pI tI]
            simpa using List.find?_some ha)] at ha2
          injection ha2 with h
          subst h
          refine Or.inr ⟨rfl, ?_⟩
          cases tI with
          | empty => exact absurd (applyRoomUpdate_total_empty a nt pI).2 hne
          | bad => exact absurd (applyRoomUpdate_total_bad a nt pI).2 hne
          | ok t0 =>
            obtain ⟨h1, h2⟩ := applyRoomUpdate_total_ok a nt pI t0
            rw [h2, h1]
            split_ifs <;> omega
        · have hpq : ∀ b : Room, (b.ID == id) = true → (b.ID == rid) = false := by
            intro b hb
            simp only [beq_iff_eq] at hb
            exact beq_eq_false_iff_ne.mpr (by omega)
          have hfq : ∀ b : Room, (b.ID == id) = true →
              ((applyRoomUpdate b nt pI tI).ID == rid) = false := by
            intro b hb
            rw [show (applyRoomUpdate b nt pI tI).ID = b.ID from
              applyRoomUpdate_ID b nt pI tI]
            exact hpq b hb
          rw [find?_updateFirst_of_disjoint hpq hfq, ha] at ha2
          injection ha2 with h
          subst h
          exact absurd rfl hne
      · have hre : (updateRoom s (some id) nt pI tI).1.rooms = s.rooms := by
          simp [updateRoom, hfound]
        rw [hre, ha] at ha2
        injection ha2 with h
        subst h
        exact absurd rfl hne
  | deleteRoom i c =>
    simp only [step] at ha2
    cases i with
    | none =>
      rw [show (deleteRoom s none c).1.rooms = s.rooms from rfl, ha] at ha2
      injection ha2 with h
      subst h
      exact absurd rfl hne
    | some id =>
      by_cases hfound : s.rooms.any (fun x => x.ID == id)
      · by_cases hc : (c == "y" || c == "Y") = true
        · have hre : (deleteRoom s (some id) c).1.rooms =
              removeFirst (fun x => x.ID == id) s.rooms := by
            simp [deleteRoom, hfound, hc]
          rw [hre] at ha2
          by_cases hid : rid = id
          · subst hid
            rw [find?_removeFirst_self_nodup (k := Room.ID) hnd] at ha2
            simp at ha2
          · have hpq : ∀ b : Room, (b.ID == id) = true → (b.ID == rid) = false := by
              intro b hb
              simp only [beq_iff_eq] at hb
              exact beq_eq_false_iff_ne.mpr (by omega)
            rw [find?_removeFirst_of_disjoint hpq, ha] at ha2
            injection ha2 with h
            subst h
            exact absurd rfl hne
        · have hre : (deleteRoom s (some id) c).1.rooms = s.rooms := by
            simp [deleteRoom, hfound, hc]
          rw [hre, ha] at ha2
          injection ha2 with h
          subst h
          exact absurd rfl hne
      · have hre : (deleteRoom s (some id) c).1.rooms = s.rooms := by
          simp [deleteRoom, hfound]
        rw [hre, ha] at ha2
        injection ha2 with h
        subst h
        exact absurd rfl hne
  | book c i q =>
    simp only [step] at ha2
    rcases bookRoom_rooms_cases s c i q with h
      | ⟨id0, qty, room, hi, hq, hfind, hpos, hle, heq⟩
    · rw [h, ha] at ha2
      injection ha2 with h
      subst h
      exact absurd rfl hne
    · rw [heq] at ha2
      by_cases hid : rid = id0
      · subst hid
        rw [ha] at hfind
        injection hfind with h
        subst h
        rw [find?_updateFirst_self ha (by simpa using List.find?_some ha)] at ha2
        injection ha2 with h
        subst h
        refine Or.inl ⟨rfl, ?_⟩
        show a.Available - qty < a.Available
        omega
      · have hpq : ∀ b : Room, (b.ID == id0) = true → (b.ID == rid) = false := by
          intro b hb
          simp only [beq_iff_eq] at hb
          exact beq_eq_false_iff_ne.mpr (by omega)
        have hfq : ∀ b : Room, (b.ID == id0) = true →
            (({ b with Available := b.Available - qty } : Room).ID == rid) = false := by
          intro b hb
          exact hpq b hb
        rw [find?_updateFirst_of_disjoint hpq hfq, ha] at ha2
        injection ha2 with h
        subst h
        exact absurd rfl hne

/-- Witness for the amended C5: a total adjustment from 5 to 2 moves room
1's availability from 5 to 2 = max 0 (5 + (2 - 5)). -/
theorem available_change_only_book_or_roomUpdate_witness :
    (Op.isBook (.updateRoom (some 1) "" .empty (.ok 2)) = true ∧
      (⟨1, "s", 100, 2, 2⟩ : Room).Available <
        (⟨1, "s", 100, 5, 5⟩ : Room).Available) ∨
    (Op.isRoomUpdate (.updateRoom (some 1) "" .empty (.ok 2)) = true ∧
      (⟨1, "s", 100, 2, 2⟩ : Room).Available =
        max 0 ((⟨1, "s", 100, 5, 5⟩ : Room).Available +
          ((⟨1, "s", 100, 2, 2⟩ : Room).Total -
            (⟨1, "s", 100, 5, 5⟩ : Room).Total))) :=
  available_change_only_book_or_roomUpdate
    ⟨[⟨1, "a", "p", "customer", "regular", 1000⟩], [⟨1, "s", 100, 5, 5⟩]⟩
    (.updateRoom (some 1) "" .empty (.ok 2)) 1
    ⟨1, "s", 100, 5, 5⟩ ⟨1, "s", 100, 2, 2⟩
    (by decide) (by decide) (by decide) (by decide)

end Claims

end Hotel
